import Mathlib

set_option maxRecDepth 100000
set_option maxHeartbeats 1600000

/-!
Verification development for the telemetry analysis engine of the
nginxconf-wizard repository: the `LogAnalyzer` and `BenchmarkAnalyzer`
classes (source file `src/analyzers/LogAnalyzer.js` /
`src/analyzers/BenchmarkAnalyzer.js`).

The JavaScript source is shallowly embedded:
* strings are `String` / `List Char`; JS numbers are modelled as `ℚ`
  (all arithmetic performed by the analyzers is exact on the inputs in
  scope; `NaN` produced by `parseFloat` is modelled as `none`);
* JS objects used as insertion-ordered count maps are association lists
  `List (key × Nat)` where a new key is appended on first encounter,
  mirroring JS object property insertion order for the non-index string
  keys (paths, addresses, user agents, messages) that arise here;
* the regular expressions of the source are transcribed as executable
  scanners over `List Char`.  Every pattern in the source alternates
  greedy classes with disjoint follow-sets (e.g. `\S+` then `\s+`,
  `[^\]]+` then `\]`), so deterministic maximal-munch scanning is
  equivalent to the backtracking regex semantics; the one pattern with a
  genuinely nondeterministic `.*?` segment (the access-log signature) is
  transcribed as an explicit existential over split points;
* `\s`, `\w`, `trim` and case folding are modelled on the ASCII range;
* fallible operations (`throw`) are modelled with `Except`.
-/

/-- ASCII model of the JS `\s` class (and of the characters removed by
`String.prototype.trim`). -/
def isWsChar (c : Char) : Bool :=
  c = ' ' || c = '\t' || c = '\n' || c = '\r' || c = Char.ofNat 11 || c = Char.ofNat 12

/-- The JS `\d` class. -/
def isDigitCh (c : Char) : Bool := c.isDigit

/-- The JS `[\d.]` class. -/
def isDotDigit (c : Char) : Bool := c.isDigit || c = '.'

/-- ASCII model of the JS `\w` class. -/
def isWordCh (c : Char) : Bool := c.isAlphanum || c = '_'

/-- The apostrophe character, written by code point to keep source plain. -/
def quoteCh : Char := Char.ofNat 39

/-- The double-quote character, written by code point. -/
def dquoteCh : Char := Char.ofNat 34

/-- Split the taken/remaining parts of a greedy character-class scan. -/
def spanP (p : Char → Bool) (l : List Char) : List Char × List Char :=
  (l.takeWhile p, l.dropWhile p)

/-- Greedy `class+`: consume one or more characters satisfying `p`,
returning the consumed run and the rest; `none` when the first character
does not satisfy `p`. -/
def many1 (p : Char → Bool) (l : List Char) : Option (List Char × List Char) :=
  match spanP p l with
  | ([], _) => none
  | (tk, rest) => some (tk, rest)

/-- Consume one or more characters satisfying `p`, keeping only the rest. -/
def skip1 (p : Char → Bool) (l : List Char) : Option (List Char) :=
  (many1 p l).map (·.2)

/-- Match a literal character sequence at the front. -/
def lit : List Char → List Char → Option (List Char)
  | [], l => some l
  | _ :: _, [] => none
  | c :: cs, d :: ds => if c = d then lit cs ds else none

/-- Consume exactly `n` characters, each satisfying `p` (regex `class{n}`). -/
def exactN : Nat → (Char → Bool) → List Char → Option (List Char)
  | 0, _, l => some l
  | _ + 1, _, [] => none
  | n + 1, p, c :: cs => if p c then exactN n p cs else none

/-- Numeric value of a digit string. -/
def digitsToNat (l : List Char) : Nat :=
  l.foldl (fun a c => a * 10 + (c.toNat - '0'.toNat)) 0

/-- JS `parseFloat` restricted to its use in the analyzers: the argument
is a capture of the class `[\d.]+`, so the valid prefix is
`digits [. digits]` or `. digits`; `none` models the `NaN` result (e.g.
on `"."`).  Characters after the valid prefix are ignored, as in JS. -/
def parseFloatQ (l : List Char) : Option ℚ :=
  match spanP isDigitCh l with
  | (d1, '.' :: r2) =>
    if d1.isEmpty && (r2.takeWhile isDigitCh).isEmpty then none
    else some ((digitsToNat d1 : ℚ) +
      (digitsToNat (r2.takeWhile isDigitCh) : ℚ) / (10 : ℚ) ^ (r2.takeWhile isDigitCh).length)
  | (d1, _) => if d1.isEmpty then none else some (digitsToNat d1 : ℚ)

/-- Search for the leftmost match of `/rt=([\d.]+)/`, returning the
capture.  The scan tries each start position left to right, exactly as an
unanchored JS regex search does. -/
def rtCapture : List Char → Option (List Char)
  | [] => none
  | c :: rest =>
    if c = 'r' then
      match rest with
      | 't' :: '=' :: rest2 =>
        match many1 isDotDigit rest2 with
        | some (tk, _) => some tk
        | none => rtCapture rest
      | _ => rtCapture rest
    else rtCapture rest

/-- Embeds the `rt=` annotation field of `LogAnalyzer.parseAccessLogLine`.
`none` is the JS `null` (no annotation); `some none` is `NaN`
(`parseFloat` failed on the capture); `some (some v)` is the response
time in milliseconds (`parseFloat(capture) * 1000`). -/
def rtField (line : List Char) : Option (Option ℚ) :=
  (rtCapture line).map (fun tk => (parseFloatQ tk).map (· * 1000))

/-- One parsed access-log record, as produced by
`LogAnalyzer.parseAccessLogLine`. -/
structure AccessRecord where
  ip : String
  timestamp : String
  method : String
  path : String
  status : Nat
  bytes : Nat
  referer : String
  userAgent : String
  responseTime : Option (Option ℚ)
deriving DecidableEq, Repr

/-- Segment `^(\S+)\s+-\s+-\s+` of the combined-format pattern:
the client address followed by the two literal dashes. -/
def scanIpDashes (l : List Char) : Option (List Char × List Char) :=
  (many1 (fun c => !isWsChar c) l).bind fun s1 =>
  (skip1 isWsChar s1.2).bind fun r2 =>
  (lit ['-'] r2).bind fun r3 =>
  (skip1 isWsChar r3).bind fun r4 =>
  (lit ['-'] r4).bind fun r5 =>
  (skip1 isWsChar r5).map fun r6 => (s1.1, r6)

/-- Segment `\[([^\]]+)\]\s+`: the bracketed timestamp. -/
def scanBracketTs (l : List Char) : Option (List Char × List Char) :=
  (lit ['['] l).bind fun r1 =>
  (many1 (fun c => c ≠ ']') r1).bind fun s1 =>
  (lit [']'] s1.2).bind fun r2 =>
  (skip1 isWsChar r2).map fun r3 => (s1.1, r3)

/-- Segment `"(\S+)\s+(\S+)\s+` of the quoted request: opening quote,
method token and raw path token. -/
def scanMethodPath (l : List Char) : Option (List Char × List Char × List Char) :=
  (lit [dquoteCh] l).bind fun r1 =>
  (many1 (fun c => !isWsChar c) r1).bind fun s1 =>
  (skip1 isWsChar s1.2).bind fun r2 =>
  (many1 (fun c => !isWsChar c) r2).bind fun s2 =>
  (skip1 isWsChar s2.2).map fun r3 => (s1.1, s2.1, r3)

/-- Segment `HTTP\/[\d.]+"\s+`: the protocol version closing the quoted
request. -/
def scanHttpVer (l : List Char) : Option (List Char) :=
  (lit ['H', 'T', 'T', 'P', '/'] l).bind fun r1 =>
  (skip1 isDotDigit r1).bind fun r2 =>
  (lit [dquoteCh] r2).bind fun r3 =>
  skip1 isWsChar r3

/-- Segment `(\d+)\s+(\d+)\s+`: status code and byte count. -/
def scanNums (l : List Char) : Option (List Char × List Char × List Char) :=
  (many1 isDigitCh l).bind fun s1 =>
  (skip1 isWsChar s1.2).bind fun r2 =>
  (many1 isDigitCh r2).bind fun s2 =>
  (skip1 isWsChar s2.2).map fun r3 => (s1.1, s2.1, r3)

/-- Segment `"([^"]*)"`: a quoted possibly-empty capture. -/
def scanQuoted (l : List Char) : Option (List Char × List Char) :=
  (lit [dquoteCh] l).bind fun r1 =>
  match spanP (fun c => c ≠ dquoteCh) r1 with
  | (tk, r2) => (lit [dquoteCh] r2).map fun r3 => (tk, r3)

/-- Segments `"([^"]*)"\s+"([^"]*)"`: referrer then user agent. -/
def scanRefUa (l : List Char) : Option (List Char × List Char) :=
  (scanQuoted l).bind fun s1 =>
  (skip1 isWsChar s1.2).bind fun r1 =>
  (scanQuoted r1).map fun s2 => (s1.1, s2.1)

/-- Embeds `LogAnalyzer.parseAccessLogLine`: match of the anchored combined-format
pattern
`^(\S+)\s+-\s+-\s+\[([^\]]+)\]\s+"(\S+)\s+(\S+)\s+HTTP\/[\d.]+"\s+(\d+)\s+(\d+)\s+"([^"]*)"\s+"([^"]*)"`
against the line (transcribed segment by segment above), with the query
string stripped from the path and the optional `rt=` annotation
extracted from the whole line. -/
def parseAccessChars (l : List Char) : Option AccessRecord :=
  (scanIpDashes l).bind fun ipR =>
  (scanBracketTs ipR.2).bind fun tsR =>
  (scanMethodPath tsR.2).bind fun mpR =>
  (scanHttpVer mpR.2.2).bind fun r1 =>
  (scanNums r1).bind fun nR =>
  (scanRefUa nR.2.2).map fun ruR =>
  { ip := String.mk ipR.1
    timestamp := String.mk tsR.1
    method := String.mk mpR.1
    path := String.mk (mpR.2.1.takeWhile (fun c => c ≠ '?'))
    status := digitsToNat nR.1
    bytes := digitsToNat nR.2.1
    referer := String.mk ruR.1
    userAgent := String.mk ruR.2
    responseTime := rtField l }

/-- Embeds `LogAnalyzer.parseAccessLogLine` on a `String`. -/
def parseAccessLogLine (line : String) : Option AccessRecord :=
  parseAccessChars line.data

/-- One parsed error-log record (`LogAnalyzer.parseErrorLogLine`). -/
structure ErrorRecord where
  level : String
  message : String
deriving DecidableEq, Repr

/-- Segment `\d{4}\/\d{2}\/\d{2}\s+` of the error-log timestamp. -/
def scanDate (l : List Char) : Option (List Char) :=
  (exactN 4 isDigitCh l).bind fun r1 =>
  (lit ['/'] r1).bind fun r2 =>
  (exactN 2 isDigitCh r2).bind fun r3 =>
  (lit ['/'] r3).bind fun r4 =>
  (exactN 2 isDigitCh r4).bind fun r5 =>
  skip1 isWsChar r5

/-- Segment `\d{2}:\d{2}:\d{2}\s+` of the error-log timestamp. -/
def scanClock (l : List Char) : Option (List Char) :=
  (exactN 2 isDigitCh l).bind fun r1 =>
  (lit [':'] r1).bind fun r2 =>
  (exactN 2 isDigitCh r2).bind fun r3 =>
  (lit [':'] r3).bind fun r4 =>
  (exactN 2 isDigitCh r4).bind fun r5 =>
  skip1 isWsChar r5

/-- The full error-log timestamp prefix
`\d{4}\/\d{2}\/\d{2}\s+\d{2}:\d{2}:\d{2}\s+` shared by the detector
signature and the error-line pattern. -/
def scanStamp (l : List Char) : Option (List Char) :=
  (scanDate l).bind scanClock

/-- Segment `\[(\w+)\]\s+`: the bracketed severity level. -/
def scanLevel (l : List Char) : Option (List Char × List Char) :=
  (lit ['['] l).bind fun r1 =>
  (many1 isWordCh r1).bind fun s1 =>
  (lit [']'] s1.2).bind fun r2 =>
  (skip1 isWsChar r2).map fun r3 => (s1.1, r3)

/-- Segment `\d+#\d+:\s+`: the process/thread id pair. -/
def scanPid (l : List Char) : Option (List Char) :=
  (many1 isDigitCh l).bind fun s1 =>
  (lit ['#'] s1.2).bind fun r1 =>
  (many1 isDigitCh r1).bind fun s2 =>
  (lit [':'] s2.2).bind fun r2 =>
  skip1 isWsChar r2

/-- Match of
`\d{4}\/\d{2}\/\d{2}\s+\d{2}:\d{2}:\d{2}\s+\[(\w+)\]\s+\d+#\d+:\s+(.*)`
at one start position; the trailing greedy `(.*)` captures the rest of
the line up to the first line terminator (`.` excludes both `\n` and
`\r`, so on a CRLF line the carriage return is not part of the
message). -/
def matchErrorLineAt (l : List Char) : Option ErrorRecord :=
  (scanStamp l).bind fun r1 =>
  (scanLevel r1).bind fun lv =>
  (scanPid lv.2).map fun msg =>
  { level := String.mk lv.1
    message := String.mk (msg.takeWhile fun c => c ≠ '\n' && c ≠ '\r') }

/-- Leftmost-position unanchored search with a positional matcher. -/
def searchFirst (f : List Char → Option α) : List Char → Option α
  | [] => f []
  | c :: rest =>
    match f (c :: rest) with
    | some a => some a
    | none => searchFirst f rest

/-- Embeds `LogAnalyzer.parseErrorLogLine`. -/
def parseErrorLogLine (line : String) : Option ErrorRecord :=
  searchFirst matchErrorLineAt line.data

/-- Does the predicate match at some start position (unanchored `test`)? -/
def anySuffix (f : List Char → Bool) : List Char → Bool
  | [] => f []
  | c :: rest => f (c :: rest) || anySuffix f rest

/-- Match of the error-log signature
`\d{4}\/\d{2}\/\d{2}\s+\d{2}:\d{2}:\d{2}\s+\[error\]` at one position. -/
def matchErrorSigAt (l : List Char) : Bool :=
  ((scanStamp l).bind (lit ['[', 'e', 'r', 'r', 'o', 'r', ']'])).isSome

/-- The error-log signature of `LogAnalyzer.detectLogType`. -/
def errorSigB (content : String) : Bool :=
  anySuffix matchErrorSigAt content.data

/-- All splits of a list into a prefix/suffix pair, in order. -/
def splitsAll : List Char → List (List Char × List Char)
  | [] => [([], [])]
  | c :: rest => ([], c :: rest) :: (splitsAll rest).map (fun p => (c :: p.1, p.2))

/-- The HTTP method alternatives of the access-log signature. -/
def httpMethods : List (List Char) :=
  [['G', 'E', 'T'], ['P', 'O', 'S', 'T'], ['P', 'U', 'T'],
   ['D', 'E', 'L', 'E', 'T', 'E'], ['P', 'A', 'T', 'C', 'H'],
   ['H', 'E', 'A', 'D'], ['O', 'P', 'T', 'I', 'O', 'N', 'S']]

/-- Matchable tail of the access-log signature after the method token:
`\s+.*?\s+HTTP\/[\d.]+`.  A match exists exactly when the remaining text
decomposes as nonempty whitespace, a run free of line terminators, more
nonempty whitespace, the literal `HTTP/` and at least one `[\d.]`
character; the split points are enumerated explicitly because `.*?` is
the one genuinely nondeterministic segment. -/
def accessSigTail (r : List Char) : Bool :=
  (splitsAll r).any fun p1 =>
    !p1.1.isEmpty && p1.1.all isWsChar &&
    ((splitsAll p1.2).any fun p2 =>
      p2.1.all (fun c => c ≠ '\n' && c ≠ '\r') &&
      ((splitsAll p2.2).any fun p3 =>
        !p3.1.isEmpty && p3.1.all isWsChar &&
        (match lit ['H', 'T', 'T', 'P', '/'] p3.2 with
         | some (c :: _) => isDotDigit c
         | _ => false)))

/-- Match of the access-log signature
`(GET|POST|PUT|DELETE|PATCH|HEAD|OPTIONS)\s+.*?\s+HTTP\/[\d.]+` at one
position. -/
def matchAccessSigAt (l : List Char) : Bool :=
  httpMethods.any fun m =>
    match lit m l with
    | some r => accessSigTail r
    | none => false

/-- The access-log signature of `LogAnalyzer.detectLogType`. -/
def accessSigB (content : String) : Bool :=
  anySuffix matchAccessSigAt content.data

/-- Embeds `LogAnalyzer.detectLogType`: the error-log signature is tried first,
then the access-log signature; no match throws. -/
def detectLogType (content : String) : Except String String :=
  if errorSigB content then Except.ok "error"
  else if accessSigB content then Except.ok "access"
  else Except.error "Could not detect log type. Please specify type explicitly."

/-- Increment the count of a key in a JS-object count map: an existing
key keeps its position, a new key is appended (property insertion
order). -/
def bump [DecidableEq α] (m : List (α × Nat)) (k : α) : List (α × Nat) :=
  if m.any (fun p => p.1 = k) then
    m.map (fun p => if p.1 = k then (p.1, p.2 + 1) else p)
  else m ++ [(k, 1)]

/-- Build the insertion-ordered count map of a key sequence, as the
`forEach` loops of the analyzer do. -/
def countsOf [DecidableEq α] (keys : List α) : List (α × Nat) :=
  keys.foldl bump []

/-- Look a key up in a count map, defaulting to `0`
(JS `counts[k] || 0`). -/
def countGet [DecidableEq α] (m : List (α × Nat)) (k : α) : Nat :=
  match m.find? (fun p => p.1 = k) with
  | some p => p.2
  | none => 0

/-- Stable insertion of an entry into a count-descending list: the entry
goes before the first entry of smaller-or-equal count, hence after every
strictly greater one and before earlier-processed equal ones. -/
def insDesc (a : α × Nat) : List (α × Nat) → List (α × Nat)
  | [] => [a]
  | b :: bs => if b.2 ≤ a.2 then a :: b :: bs else b :: insDesc a bs

/-- The stable descending-by-count sort performed by
`.sort((a, b) => b[1] - a[1])` (ECMAScript `Array.prototype.sort` is
stable): a right fold of stable insertions keeps entries of equal count
in their original relative order. -/
def sortDesc (l : List (α × Nat)) : List (α × Nat) :=
  l.foldr insDesc []

/-- Embeds `toFixed(2)` as exact rational rounding to two decimal places
(ECMAScript `toFixed` picks the closest multiple of `10 ^ -2`, the
larger one on ties). -/
def round2 (q : ℚ) : ℚ :=
  (round (q * 100) : ℚ) / 100

/-- One entry of a top-N list: key, count and two-decimal percentage. -/
structure PctEntry where
  key : String
  count : Nat
  percentage : ℚ
deriving DecidableEq, Repr

/-- Is the string a canonical array-index property key in the sense of
ECMAScript property enumeration: the canonical decimal numeral of an
integer in `[0, 2^32 - 2]` (no leading zero except `"0"` itself)? -/
def isArrayIndexKey (s : String) : Bool :=
  match s.data with
  | [] => false
  | [c] => c.isDigit
  | c :: rest =>
    c.isDigit && !(c = '0') && rest.all isDigitCh &&
      digitsToNat (c :: rest) ≤ 4294967294

/-- Insert an entry into an ascending-by-numeric-key list (canonical
index keys have pairwise distinct values, so no tie order arises). -/
def insAscNum (a : String × Nat) : List (String × Nat) → List (String × Nat)
  | [] => [a]
  | b :: bs =>
    if digitsToNat a.1.data ≤ digitsToNat b.1.data then a :: b :: bs
    else b :: insAscNum a bs

/-- Sort the array-index-keyed entries by ascending numeric key. -/
def sortAscNum (l : List (String × Nat)) : List (String × Nat) :=
  l.foldr insAscNum []

/-- Embeds `Object.entries` on a count object: ECMAScript enumerates the
array-index-like keys first, in ascending numeric order, and then the
remaining string keys in property insertion (first-seen) order. -/
def entriesOf (m : List (String × Nat)) : List (String × Nat) :=
  sortAscNum (m.filter fun p => isArrayIndexKey p.1) ++
    m.filter (fun p => !(isArrayIndexKey p.1))

/-- The top-10 construction shared by `topPaths`, `topIPs` and
`topErrors`: enumerate the count-map entries (`Object.entries`), sort by
descending count (stable), keep the first 10, attach
`((count / total) * 100).toFixed(2)`. -/
def topList (entries : List (String × Nat)) (total : Nat) : List PctEntry :=
  ((sortDesc (entriesOf entries)).take 10).map fun e =>
    { key := e.1, count := e.2, percentage := round2 ((e.2 : ℚ) / (total : ℚ) * 100) }

/-- A count with its display percentage. -/
structure CatStat where
  count : Nat
  percentage : ℚ
deriving DecidableEq, Repr

/-- The four status classes with counts and percentages
(`LogAnalyzer.categorizeStatusCodes` result). -/
structure StatusBreakdown where
  success : CatStat
  redirect : CatStat
  clientError : CatStat
  serverError : CatStat
deriving DecidableEq, Repr

/-- Raw class counters accumulated by `categorizeStatusCodes`. -/
structure StatusCats where
  success : Nat
  redirect : Nat
  clientError : Nat
  serverError : Nat
deriving DecidableEq, Repr

/-- The classification loop of `categorizeStatusCodes`: each status-count
entry is added to the class its code falls in (2xx/3xx/4xx/5xx), codes
outside 200–599 are added nowhere. -/
def catStep (acc : StatusCats) (p : Nat × Nat) : StatusCats :=
  if 200 ≤ p.1 && p.1 < 300 then { acc with success := acc.success + p.2 }
  else if 300 ≤ p.1 && p.1 < 400 then { acc with redirect := acc.redirect + p.2 }
  else if 400 ≤ p.1 && p.1 < 500 then { acc with clientError := acc.clientError + p.2 }
  else if 500 ≤ p.1 && p.1 < 600 then { acc with serverError := acc.serverError + p.2 }
  else acc

/-- Embeds `LogAnalyzer.categorizeStatusCodes`: classify the status counts and
attach `((count / total) * 100).toFixed(2)` percentages. -/
def categorizeStatusCodes (statusCounts : List (Nat × Nat)) (total : Nat) : StatusBreakdown :=
  let cats := statusCounts.foldl catStep ⟨0, 0, 0, 0⟩
  { success := ⟨cats.success, round2 ((cats.success : ℚ) / (total : ℚ) * 100)⟩
    redirect := ⟨cats.redirect, round2 ((cats.redirect : ℚ) / (total : ℚ) * 100)⟩
    clientError := ⟨cats.clientError, round2 ((cats.clientError : ℚ) / (total : ℚ) * 100)⟩
    serverError := ⟨cats.serverError, round2 ((cats.serverError : ℚ) / (total : ℚ) * 100)⟩ }

/-- Ascending numeric sort, the effect of `[...arr].sort((a, b) => a - b)`
on a list of numbers. -/
def sortAsc (l : List ℚ) : List ℚ :=
  l.insertionSort (· ≤ ·)

/-- Embeds `LogAnalyzer.average`. -/
def averageQ (l : List ℚ) : ℚ :=
  l.sum / (l.length : ℚ)

/-- Embeds `LogAnalyzer.median`: middle element of the ascending-sorted copy for
odd length, mean of the two middle elements for even length.  (On the
empty list the JS source indexes past the array and yields `NaN`; the
analyzer only calls this on nonempty samples, and the `getD` default is
never read there.) -/
def medianQ (l : List ℚ) : ℚ :=
  let sorted := sortAsc l
  let mid := sorted.length / 2
  if sorted.length % 2 = 1 then sorted.getD mid 0
  else (sorted.getD (mid - 1) 0 + sorted.getD mid 0) / 2

/-- Embeds `LogAnalyzer.percentile`: nearest-rank value
`sorted[ceil(p / 100 * n) - 1]` on the ascending-sorted copy.  (For the
percentiles the analyzer uses, `0 < p ≤ 100`, the index is in range on
nonempty input; JS would yield `undefined` outside it.) -/
def percentileQ (l : List ℚ) (p : ℚ) : ℚ :=
  let sorted := sortAsc l
  sorted.getD (Int.ceil (p / 100 * (sorted.length : ℚ)) - 1).toNat 0

/-- Embeds `Math.max(...arr)` on a nonempty list (the analyzer guards on
nonemptiness before calling it). -/
def maxQ (l : List ℚ) : ℚ :=
  match l with
  | [] => 0
  | x :: xs => xs.foldl max x

/-- The `responseTimeStats` record of an access-log analysis. -/
structure RTStats where
  avg : ℚ
  median : ℚ
  p95 : ℚ
  p99 : ℚ
  max : ℚ
deriving DecidableEq, Repr

/-- Lower-casing on the ASCII range, modelling the effect of the
case-insensitive `i` regex flag on the ASCII patterns used here. -/
def lowerStr (s : String) : List Char :=
  s.data.map Char.toLower

/-- Substring containment, the unanchored `test` of a literal pattern. -/
def containsSub (needle : List Char) : List Char → Bool
  | [] => needle.isEmpty
  | c :: rest => (lit needle (c :: rest)).isSome || containsSub needle rest

/-- Embeds `LogAnalyzer.isBot`: the user agent matches one of the fixed
case-insensitive crawler/tool patterns. -/
def isBot (ua : String) : Bool :=
  ["bot", "crawler", "spider", "scraper", "curl", "wget", "python", "java"].any
    fun p => containsSub p.data (lowerStr ua)

/-- One recommendation.  The source also attaches a `message` string and
a fixed `suggestions` string list; both are display text fully determined
by the branch that fired (and numbers already present in the result), so
the embedding keeps the decision-relevant `severity` and `category`. -/
structure Recommendation where
  severity : String
  category : String
deriving DecidableEq, Repr

/-- One security issue (`type`, fixed message, offending paths; severity
is `"high"` for both kinds). -/
structure SecurityIssue where
  severity : String
  ty : String
  message : String
  paths : List String
deriving DecidableEq, Repr

/-- The access-log analysis result (`analyzeAccessLog`'s `results`
object; `timeRange`, `userAgents` and the scratch `paths` field are
never populated with data the claims concern and are omitted). -/
structure AccessResults where
  totalRequests : Nat
  statusCodes : List (Nat × Nat)
  methods : List (String × Nat)
  responseTimes : List ℚ
  topPaths : List PctEntry
  topIPs : List PctEntry
  botTraffic : CatStat
  responseTimeStats : Option RTStats
  statusBreakdown : StatusBreakdown
  recommendations : List Recommendation
  securityIssues : List SecurityIssue
deriving DecidableEq, Repr

/-- JS truthiness of the `responseTime` field: `null` (no annotation),
`NaN` (unparsable capture) and `0` are all falsy, so only a nonzero
parsed value is pushed onto `results.responseTimes`. -/
def rtPush (rt : Option (Option ℚ)) : Option ℚ :=
  match rt with
  | some (some v) => if v = 0 then none else some v
  | _ => none

/-- The records obtained from the kept lines; lines whose parse fails are
dropped by the `if (!parsed) return` guard. -/
def accessRecords (lines : List String) : List AccessRecord :=
  lines.filterMap parseAccessLogLine

/-- The response-time sample collected by the `forEach` loop. -/
def responseTimesOf (recs : List AccessRecord) : List ℚ :=
  recs.filterMap fun r => rtPush r.responseTime

/-- Embeds `LogAnalyzer.generateAccessLogRecommendations`.  The source pushes
onto one array guarded by five independent threshold checks, in this
order; the embedding concatenates the five blocks. -/
def generateAccessLogRecommendations (r : AccessResults) : List Recommendation :=
  (if r.statusBreakdown.serverError.count > 0 then
    (if r.statusBreakdown.serverError.percentage > 5 then
      [{ severity := "high", category := "errors" }] else [])
   else []) ++
  (if ((countGet r.statusCodes 404 : ℚ) / (r.totalRequests : ℚ)) * 100 > 10 then
    [{ severity := "medium", category := "not-found" }] else []) ++
  (match r.responseTimeStats with
   | some s =>
     if s.p95 > 1000 then [{ severity := "high", category := "performance" }]
     else if s.p95 > 500 then [{ severity := "medium", category := "performance" }]
     else []
   | none => []) ++
  (if r.botTraffic.percentage > 30 then
    [{ severity := "medium", category := "bots" }] else []) ++
  (match r.topIPs with
   | top :: _ =>
     if top.percentage > 50 then [{ severity := "high", category := "security" }] else []
   | [] => [])

/-- The SQL-injection indicator
`/('|"|;|--|\/\*|\*\/|union|select|insert|delete|drop|update|exec)/i`:
some alternative occurs in the path, case-insensitively. -/
def sqlPat (path : String) : Bool :=
  ([[quoteCh], [dquoteCh], [';'], ['-', '-'], ['/', '*'], ['*', '/']] ++
   ["union".data, "select".data, "insert".data, "delete".data,
    "drop".data, "update".data, "exec".data]).any
    fun pat => containsSub pat (lowerStr path)

/-- The path-traversal indicator `/\.\.|\/etc\/|\/proc\/|\/var\//i`. -/
def travPat (path : String) : Bool :=
  [['.', '.'], "/etc/".data, "/proc/".data, "/var/".data].any
    fun pat => containsSub pat (lowerStr path)

/-- Embeds `LogAnalyzer.detectSecurityIssues`: filter the top-10 path list with
each pattern family and report an issue per nonempty match set. -/
def detectSecurityIssues (topPaths : List PctEntry) : List SecurityIssue :=
  (if (topPaths.filter (fun e => sqlPat e.key)).length > 0 then
    [{ severity := "high", ty := "sql-injection",
       message := "Potential SQL injection attempts detected",
       paths := (topPaths.filter (fun e => sqlPat e.key)).map (·.key) }]
   else []) ++
  (if (topPaths.filter (fun e => travPat e.key)).length > 0 then
    [{ severity := "high", ty := "path-traversal",
       message := "Potential path traversal attempts detected",
       paths := (topPaths.filter (fun e => travPat e.key)).map (·.key) }]
   else [])

/-- Embeds `LogAnalyzer.analyzeAccessLog` on the kept lines. -/
def analyzeAccessLog (lines : List String) : AccessResults :=
  let recs := accessRecords lines
  let total := lines.length
  let statusCounts := countsOf (recs.map (·.status))
  let methodCounts := countsOf (recs.map (·.method))
  let pathCounts := countsOf (recs.map (·.path))
  let uaCounts := countsOf ((recs.filter (fun r => r.userAgent ≠ "")).map (·.userAgent))
  let ipCounts := countsOf (recs.map (·.ip))
  let rts := responseTimesOf recs
  let botCount := ((uaCounts.filter (fun p => isBot p.1)).map (·.2)).sum
  let base : AccessResults :=
    { totalRequests := total
      statusCodes := statusCounts
      methods := methodCounts
      responseTimes := rts
      topPaths := topList pathCounts total
      topIPs := topList ipCounts total
      botTraffic := ⟨botCount, round2 ((botCount : ℚ) / (total : ℚ) * 100)⟩
      responseTimeStats :=
        if rts.length > 0 then
          some { avg := averageQ rts, median := medianQ rts,
                 p95 := percentileQ rts 95, p99 := percentileQ rts 99, max := maxQ rts }
        else none
      statusBreakdown := categorizeStatusCodes statusCounts total
      recommendations := []
      securityIssues := [] }
  { base with
    recommendations := generateAccessLogRecommendations base
    securityIssues := detectSecurityIssues base.topPaths }

/-- The error-log analysis result. -/
structure ErrorResults where
  totalErrors : Nat
  errorLevels : List (String × Nat)
  topErrors : List PctEntry
  recommendations : List Recommendation
deriving DecidableEq, Repr

/-- Embeds `LogAnalyzer.generateErrorLogRecommendations`. -/
def generateErrorLogRecommendations (totalErrors : Nat)
    (errorLevels : List (String × Nat)) : List Recommendation :=
  (if totalErrors > 1000 then [{ severity := "high", category := "errors" }] else []) ++
  (if countGet errorLevels "crit" > 0 then
    [{ severity := "high", category := "critical" }] else [])

/-- Embeds `LogAnalyzer.analyzeErrorLog` on the kept lines; messages are grouped
by their first 100 characters. -/
def analyzeErrorLog (lines : List String) : ErrorResults :=
  let recs := lines.filterMap parseErrorLogLine
  let levelCounts := countsOf (recs.map (·.level))
  let msgCounts := countsOf (recs.map (fun r => String.mk (r.message.data.take 100)))
  { totalErrors := lines.length
    errorLevels := levelCounts
    topErrors := topList msgCounts lines.length
    recommendations := generateErrorLogRecommendations lines.length levelCounts }

/-- A line survives `content.split('\n').filter(line => line.trim())`
exactly when it has a non-whitespace character. -/
def keptLine (l : List Char) : Bool :=
  l.any fun c => !isWsChar c

/-- Embeds `content.split('\n')` on the character list. -/
def splitOnNl : List Char → List (List Char)
  | [] => [[]]
  | c :: rest =>
    if c = '\n' then [] :: splitOnNl rest
    else
      match splitOnNl rest with
      | [] => [[c]]
      | h :: t => (c :: h) :: t

/-- The nonblank lines handed to the per-kind analyzers. -/
def keptLines (content : String) : List String :=
  ((splitOnNl content.data).filter keptLine).map String.mk

/-- A log-analysis result of either kind. -/
inductive LogResult where
  | acc (r : AccessResults)
  | err (r : ErrorResults)
deriving DecidableEq, Repr

/-- Embeds `LogAnalyzer.analyze`: resolve `'auto'` through the detector, split
and filter the lines, dispatch on the kind, throw on an unknown kind. -/
def analyze (content : String) (ty : String) : Except String LogResult :=
  (if ty = "auto" then detectLogType content else Except.ok ty).bind fun kind =>
    if kind = "access" then Except.ok (LogResult.acc (analyzeAccessLog (keptLines content)))
    else if kind = "error" then Except.ok (LogResult.err (analyzeErrorLog (keptLines content)))
    else Except.error ("Unknown log type: " ++ kind)

/-- The per-instance fields set by the `LogAnalyzer` constructor.  They
are written once (`this.stats = ⟨⟩`, `this.recommendations = []`) and no
method reads or writes them afterwards. -/
structure LogAnalyzerState where
  stats : List (String × ℚ)
  recommendations : List Recommendation
deriving DecidableEq, Repr

/-- Embeds `new LogAnalyzer()`. -/
def LogAnalyzerState.init : LogAnalyzerState := ⟨[], []⟩

/-- The `analyze` method with the receiver's state passed explicitly:
the returned state is the input state, untouched, because the method
body only reads its arguments and builds a fresh `results` object. -/
def analyzeSt (st : LogAnalyzerState) (content : String) (ty : String) :
    Except String LogResult × LogAnalyzerState :=
  (analyze content ty, st)

/-- The fields of a parsed benchmark result that
`BenchmarkAnalyzer.calculateGrade` consults: `metrics.latency?.avg`
(`none` when the latency block or its mean is absent), `results.errors`,
`results.summary?.totalRequests` (a normalized number, possibly
fractional after a `k` suffix) and `results.socketErrors`
(connect, read, write, timeout). -/
structure BenchResults where
  latencyAvg : Option ℚ
  errors : Nat
  totalRequests : Option ℚ
  socketErrors : Option (Nat × Nat × Nat × Nat)
deriving DecidableEq, Repr

/-- The latency deduction of `calculateGrade`.  The source guards the
block with the truthiness of `metrics.latency?.avg`; a present mean of
`0` skips the block there and falls through every band here, a deduction
of `0` either way. -/
def latencyDeduction (latencyAvg : Option ℚ) : Nat :=
  match latencyAvg with
  | none => 0
  | some latency =>
    if latency > 1000 then 40
    else if latency > 500 then 25
    else if latency > 200 then 15
    else if latency > 100 then 5
    else 0

/-- The error-rate deduction, applied only when `errors > 0` and a
summary is present.  A reported total of `0` makes the JS rate
`Infinity`, landing in the first band. -/
def errorDeduction (errors : Nat) (totalRequests : ℚ) : Nat :=
  if totalRequests = 0 then 30
  else
    let errorRate : ℚ := (errors : ℚ) / totalRequests * 100
    if errorRate > 10 then 30
    else if errorRate > 5 then 20
    else if errorRate > 1 then 10
    else 5

/-- The socket-error deduction on the summed breakdown. -/
def socketDeduction (se : Nat × Nat × Nat × Nat) : Nat :=
  let total := se.1 + se.2.1 + se.2.2.1 + se.2.2.2
  if total > 100 then 20
  else if total > 10 then 10
  else if total > 0 then 5
  else 0

/-- Embeds `BenchmarkAnalyzer.calculateGrade`: start from 100, apply the three
deductions in order, bucket the score into a letter. -/
def calculateGrade (r : BenchResults) : String :=
  let score : ℤ := 100
  let score := score - latencyDeduction r.latencyAvg
  let score :=
    match r.totalRequests with
    | some t => if r.errors > 0 then score - errorDeduction r.errors t else score
    | none => score
  let score :=
    match r.socketErrors with
    | some se => score - socketDeduction se
    | none => score
  if score ≥ 90 then "A"
  else if score ≥ 80 then "B"
  else if score ≥ 70 then "C"
  else if score ≥ 60 then "D"
  else "F"

/-!  Definitions transcribed from the specification's wording, for the
refinement-shaped claims.  Unlike everything above, these follow the
spec text, and the theorems compare them with the source-derived
definitions. -/

/-- Modelled from the spec: the nearest-rank percentile with the index
clamped to `[0, n-1]`, as the specification describes it. -/
def percentileSpecClamped (l : List ℚ) (p : ℚ) : ℚ :=
  let sorted := sortAsc l
  let n : ℤ := sorted.length
  let idx : ℤ := min (max (Int.ceil (p / 100 * (n : ℚ)) - 1) 0) (n - 1)
  sorted.getD idx.toNat 0

/-- Modelled from the spec: the grading algorithm as the claim words it —
start at 100, subtract the mean-latency band, the error-rate band when
total requests are known, and the summed socket-error band, then bucket
the score. -/
def gradeSpec (r : BenchResults) : String :=
  let latB : ℤ :=
    match r.latencyAvg with
    | none => 0
    | some latency =>
      if latency > 1000 then 40
      else if latency > 500 then 25
      else if latency > 200 then 15
      else if latency > 100 then 5
      else 0
  let errB : ℤ :=
    match r.totalRequests with
    | none => 0
    | some t =>
      if r.errors = 0 then 0
      else if t = 0 then 30
      else if (r.errors : ℚ) / t * 100 > 10 then 30
      else if (r.errors : ℚ) / t * 100 > 5 then 20
      else if (r.errors : ℚ) / t * 100 > 1 then 10
      else 5
  let sockB : ℤ :=
    match r.socketErrors with
    | none => 0
    | some se =>
      if se.1 + se.2.1 + se.2.2.1 + se.2.2.2 > 100 then 20
      else if se.1 + se.2.1 + se.2.2.1 + se.2.2.2 > 10 then 10
      else if se.1 + se.2.1 + se.2.2.1 + se.2.2.2 > 0 then 5
      else 0
  let score : ℤ := 100 - latB - errB - sockB
  if score ≥ 90 then "A"
  else if score ≥ 80 then "B"
  else if score ≥ 70 then "C"
  else if score ≥ 60 then "D"
  else "F"

/-- The number of kept lines matching the access-log grammar. -/
def wellFormedCount (lines : List String) : Nat :=
  (lines.filter (fun l => (parseAccessLogLine l).isSome)).length

/-- The number of kept lines failing the access-log grammar. -/
def garbageCount (lines : List String) : Nat :=
  (lines.filter (fun l => (parseAccessLogLine l).isNone)).length

/-- Replace a parsed-but-zero response time by an absent one; the claim
about zero annotations states that the analysis cannot tell the two
apart. -/
def zeroRtToAbsent (r : AccessRecord) : AccessRecord :=
  if r.responseTime = some (some 0) then { r with responseTime := none } else r

/-- The sum of the four status-breakdown percentages as stored. -/
def breakdownPctSum (b : StatusBreakdown) : ℚ :=
  b.success.percentage + b.redirect.percentage +
    b.clientError.percentage + b.serverError.percentage

/-- Sum of the counts of a count map. -/
def sumCounts (m : List (α × Nat)) : Nat :=
  (m.map (·.2)).sum

/-- The key/count pair displayed by a top-list entry. -/
def entryPair (e : PctEntry) : String × Nat :=
  (e.key, e.count)

/-- The properties of a top-N list built from the count-map `entries`
with percentage denominator `total`: descending counts, stability of
ties with respect to the `Object.entries` enumeration order of the map
(which is first-seen order whenever no key is array-index-like), at
most ten entries, and two-decimal percentages of `total`. -/
abbrev TopListOk (top : List PctEntry) (entries : List (String × Nat)) (total : Nat) : Prop :=
  List.Pairwise (fun a b => b.count ≤ a.count) top ∧
  top.length ≤ 10 ∧
  (∀ c : Nat, ∃ t, (top.filter (fun e => e.count == c)).map entryPair ++ t =
    (entriesOf entries).filter (fun e => e.2 == c)) ∧
  ∀ e ∈ top, e.percentage = round2 ((e.count : ℚ) / (total : ℚ) * 100)

/-- Equality of `Except` results is decidable componentwise (needed to
evaluate the detector on concrete content). -/
instance [DecidableEq ε] [DecidableEq α] : DecidableEq (Except ε α) := fun a b =>
  match a, b with
  | Except.ok x, Except.ok y =>
    if h : x = y then Decidable.isTrue (by rw [h]) else Decidable.isFalse (by simp [h])
  | Except.error x, Except.error y =>
    if h : x = y then Decidable.isTrue (by rw [h]) else Decidable.isFalse (by simp [h])
  | Except.ok _, Except.error _ => Decidable.isFalse (by simp)
  | Except.error _, Except.ok _ => Decidable.isFalse (by simp)

/-- A kept line parses and carries a status in the four breakdown
classes (the decidable per-line hypothesis of the status-sum claim). -/
def statusOkLine (l : String) : Bool :=
  match parseAccessLogLine l with
  | some r => 200 ≤ r.status && r.status < 600
  | none => false

/-- A well-formed combined-format access line used as concrete input. -/
def goodLine : String :=
  "1.2.3.4 - - [01/Jan/2024:00:00:00 +0000] \"GET /a HTTP/1.1\" 200 123 \"-\" \"Mozilla\""

/-- A blob with three well-formed access lines and two garbage lines. -/
def blob32 : String :=
  goodLine ++ "\n" ++ goodLine ++ "\ngarbage\n" ++ goodLine ++ "\nnot a log line\n"

/-- A blob with one well-formed access line and one garbage line. -/
def blob11 : String :=
  goodLine ++ "\ngarbage"

/-- A well-formed access line whose request-path token is the all-digit
string `123` — an array-index-like property key. -/
def numLine : String :=
  "1.2.3.4 - - [01/Jan/2024:00:00:00 +0000] \"GET 123 HTTP/1.1\" 200 7 \"-\" \"UA\""

/-- A blob whose first line hits path `/a` and whose second hits the
all-digit path `123`, with equal counts. -/
def blobTie : String :=
  goodLine ++ "\n" ++ numLine

/-- Content carrying both the error-log signature and the access-log
signature. -/
def bothSigContent : String :=
  "2024/01/02 03:04:05 [error] GET x HTTP/1.1"

/-- A well-formed access line whose `rt=` annotation is exactly zero. -/
def zeroRtLine : String :=
  goodLine ++ " rt=0.000"

/-- The injection-looking top path of the spec's example, built from
code points to keep the source plain. -/
def adminInjPath : String :=
  String.mk ['/', 'a', 'd', 'm', 'i', 'n', quoteCh, ' ', 'O', 'R', ' ',
    quoteCh, '1', quoteCh, '=', quoteCh, '1']

/-- The traversal-looking top path of the spec's example. -/
def travPath : String := "/../../etc/passwd"

theorem length_filter_partition (p : α → Bool) (l : List α) :
    l.length = (l.filter p).length + (l.filter (fun a => !(p a))).length := by
  induction l with
  | nil => rfl
  | cons a l ih =>
    by_cases h : p a = true <;> simp [List.filter_cons, h, ih] <;> omega

theorem insDesc_perm (a : α × Nat) (l : List (α × Nat)) :
    List.Perm (insDesc a l) (a :: l) := by
  induction l with
  | nil => simp [insDesc]
  | cons b bs ih =>
    by_cases h : b.2 ≤ a.2
    · simp [insDesc, h]
    · simp only [insDesc, if_neg h]
      exact (ih.cons b).trans (List.Perm.swap a b bs)

theorem mem_insDesc {a b : α × Nat} {l : List (α × Nat)} :
    b ∈ insDesc a l ↔ b = a ∨ b ∈ l := by
  rw [(insDesc_perm a l).mem_iff, List.mem_cons]

theorem pairwise_insDesc {a : α × Nat} {l : List (α × Nat)}
    (h : l.Pairwise (fun x y => y.2 ≤ x.2)) :
    (insDesc a l).Pairwise (fun x y => y.2 ≤ x.2) := by
  induction l with
  | nil => simp [insDesc]
  | cons b bs ih =>
    rcases List.pairwise_cons.mp h with ⟨hb, hbs⟩
    by_cases hle : b.2 ≤ a.2
    · simp only [insDesc, if_pos hle]
      refine List.pairwise_cons.mpr ⟨?_, h⟩
      intro y hy
      rcases List.mem_cons.mp hy with rfl | hy
      · exact hle
      · exact le_trans (hb y hy) hle
    · simp only [insDesc, if_neg hle]
      refine List.pairwise_cons.mpr ⟨?_, ih hbs⟩
      intro y hy
      rcases mem_insDesc.mp hy with rfl | hy
      · omega
      · exact hb y hy

theorem sortDesc_pairwise (l : List (α × Nat)) :
    (sortDesc l).Pairwise (fun x y => y.2 ≤ x.2) := by
  induction l with
  | nil => simp [sortDesc]
  | cons a l ih => exact pairwise_insDesc ih

theorem filter_insDesc [DecidableEq α] (a : α × Nat) (l : List (α × Nat)) (c : Nat) :
    (insDesc a l).filter (fun e => e.2 == c) =
      (if a.2 = c then [a] else []) ++ l.filter (fun e => e.2 == c) := by
  induction l with
  | nil => by_cases h : a.2 = c <;> simp [insDesc, List.filter_cons, h]
  | cons b bs ih =>
    by_cases hle : b.2 ≤ a.2
    · simp only [insDesc, if_pos hle, List.filter_cons]
      by_cases ha : a.2 = c <;> by_cases hb : b.2 = c <;> simp [ha, hb]
    · simp only [insDesc, if_neg hle, List.filter_cons]
      by_cases hb : b.2 = c
      · have ha : ¬ a.2 = c := by omega
        simp [hb, ih, ha]
      · simp [hb, ih]

theorem filter_sortDesc [DecidableEq α] (l : List (α × Nat)) (c : Nat) :
    (sortDesc l).filter (fun e => e.2 == c) = l.filter (fun e => e.2 == c) := by
  induction l with
  | nil => rfl
  | cons a l ih =>
    show (insDesc a (sortDesc l)).filter _ = _
    rw [filter_insDesc, ih, List.filter_cons]
    by_cases h : a.2 = c <;> simp [h]

theorem bump_keys [DecidableEq α] (m : List (α × Nat)) (k : α) :
    (bump m k).map (·.1) = if m.any (fun p => p.1 = k) then m.map (·.1) else m.map (·.1) ++ [k] := by
  by_cases h : m.any (fun p => decide (p.1 = k)) = true
  · simp only [bump, h, if_true, List.map_map]
    refine List.map_congr_left ?_
    intro p _
    by_cases hp : p.1 = k <;> simp [hp]
  · simp [bump, h]

theorem nodup_append_single {l : List α} {k : α} (hm : l.Nodup) (hk : k ∉ l) :
    (l ++ [k]).Nodup := by
  induction l with
  | nil => simp
  | cons a rest ih =>
    simp only [List.nodup_cons] at hm
    simp only [List.cons_append, List.nodup_cons]
    refine ⟨?_, ih hm.2 (fun hmem => hk (List.mem_cons_of_mem a hmem))⟩
    intro hmem
    rcases List.mem_append.mp hmem with h | h
    · exact hm.1 h
    · rw [List.mem_singleton] at h
      exact hk (by simp [h])

theorem bump_keys_nodup [DecidableEq α] (m : List (α × Nat)) (k : α)
    (hm : (m.map (·.1)).Nodup) : ((bump m k).map (·.1)).Nodup := by
  rw [bump_keys]
  by_cases h : m.any (fun p => p.1 = k) = true
  · rwa [if_pos h]
  · rw [if_neg h]
    refine nodup_append_single hm ?_
    intro hmem
    rcases List.mem_map.mp hmem with ⟨p, hp, hpk⟩
    exact absurd (List.any_eq_true.mpr ⟨p, hp, by simp [hpk]⟩) h

theorem countsOf_keys_nodup [DecidableEq α] (keys : List α) :
    ((countsOf keys).map (·.1)).Nodup := by
  suffices h : ∀ m : List (α × Nat), (m.map (·.1)).Nodup →
      ((keys.foldl bump m).map (·.1)).Nodup by
    exact h [] (by simp)
  induction keys with
  | nil => intro m hm; simpa using hm
  | cons k keys ih =>
    intro m hm
    exact ih (bump m k) (bump_keys_nodup m k hm)

theorem map_id_of_no_key [DecidableEq α] (m : List (α × Nat)) (k : α)
    (h : ∀ p ∈ m, p.1 ≠ k) :
    (m.map fun p => if p.1 = k then (p.1, p.2 + 1) else p) = m := by
  induction m with
  | nil => rfl
  | cons a rest ih =>
    have ha := h a (by simp)
    simp only [List.map_cons, if_neg ha, List.cons.injEq, true_and]
    exact ih fun p hp => h p (by simp [hp])

theorem sumCounts_incr [DecidableEq α] (m : List (α × Nat)) (k : α)
    (hnd : (m.map (·.1)).Nodup) (h : m.any (fun p => p.1 = k) = true) :
    sumCounts (m.map fun p => if p.1 = k then (p.1, p.2 + 1) else p) = sumCounts m + 1 := by
  induction m with
  | nil => simp at h
  | cons a rest ih =>
    simp only [List.map_cons, List.nodup_cons] at hnd
    by_cases ha : a.1 = k
    · have hrest : (rest.map fun p => if p.1 = k then (p.1, p.2 + 1) else p) = rest :=
        map_id_of_no_key rest k fun p hp hpk =>
          hnd.1 (List.mem_map.mpr ⟨p, hp, show p.1 = a.1 by rw [hpk, ha]⟩)
    -- the bumped entry contributes the extra 1; every other entry is untouched
      rw [List.map_cons, if_pos ha, hrest]
      simp only [sumCounts, List.map_cons, List.sum_cons]
      omega
    · have h2 : rest.any (fun p => p.1 = k) = true := by
        rcases List.any_eq_true.mp h with ⟨p, hp, hpk⟩
        rcases List.mem_cons.mp hp with rfl | hp2
        · simp only [decide_eq_true_eq] at hpk
          exact absurd hpk ha
        · exact List.any_eq_true.mpr ⟨p, hp2, hpk⟩
      rw [List.map_cons, if_neg ha]
      have := ih hnd.2 h2
      simp only [sumCounts, List.map_cons, List.sum_cons] at this ⊢
      omega

theorem sumCounts_bump [DecidableEq α] (m : List (α × Nat)) (k : α)
    (hnd : (m.map (·.1)).Nodup) :
    sumCounts (bump m k) = sumCounts m + 1 := by
  by_cases h : m.any (fun p => p.1 = k) = true
  · simp only [bump, h, if_true]
    exact sumCounts_incr m k hnd h
  · simp [bump, h, sumCounts]

theorem sumCounts_countsOf [DecidableEq α] (keys : List α) :
    sumCounts (countsOf keys) = keys.length := by
  suffices h : ∀ m : List (α × Nat), (m.map (·.1)).Nodup →
      sumCounts (keys.foldl bump m) = sumCounts m + keys.length by
    simpa [sumCounts] using h [] (by simp)
  induction keys with
  | nil => intro m _; simp
  | cons k keys ih =>
    intro m hm
    simp only [List.foldl_cons, List.length_cons]
    rw [ih (bump m k) (bump_keys_nodup m k hm), sumCounts_bump m k hm]
    omega

theorem foldl_bump_keys_sub [DecidableEq α] :
    ∀ (keys : List α) (m : List (α × Nat)) (p : α × Nat),
      p ∈ keys.foldl bump m → p.1 ∈ m.map (·.1) ∨ p.1 ∈ keys := by
  intro keys
  induction keys with
  | nil =>
    intro m p hp
    exact Or.inl (List.mem_map.mpr ⟨p, hp, rfl⟩)
  | cons k keys ih =>
    intro m p hp
    rcases ih (bump m k) p hp with h1 | h2
    · rw [bump_keys] at h1
      by_cases hb : m.any (fun q => q.1 = k) = true
      · rw [if_pos hb] at h1
        exact Or.inl h1
      · rw [if_neg hb] at h1
        rcases List.mem_append.mp h1 with h | h
        · exact Or.inl h
        · rw [List.mem_singleton] at h
          exact Or.inr (by simp [h])
    · exact Or.inr (List.mem_cons_of_mem k h2)

theorem mem_countsOf [DecidableEq α] (keys : List α) :
    ∀ p ∈ countsOf keys, p.1 ∈ keys := by
  intro p hp
  rcases foldl_bump_keys_sub keys [] p hp with h | h
  · simp at h
  · exact h

theorem catStep_sum (acc : StatusCats) (p : Nat × Nat) :
    (catStep acc p).success + (catStep acc p).redirect +
      (catStep acc p).clientError + (catStep acc p).serverError =
    acc.success + acc.redirect + acc.clientError + acc.serverError +
      (if 200 ≤ p.1 ∧ p.1 < 600 then p.2 else 0) := by
  unfold catStep
  split_ifs with h1 h2 h3 h4 h5 <;> simp_all <;> omega

theorem foldl_catStep_sum (entries : List (Nat × Nat)) :
    ∀ acc : StatusCats,
      (entries.foldl catStep acc).success + (entries.foldl catStep acc).redirect +
        (entries.foldl catStep acc).clientError + (entries.foldl catStep acc).serverError =
      acc.success + acc.redirect + acc.clientError + acc.serverError +
        sumCounts (entries.filter fun p => 200 ≤ p.1 && p.1 < 600) := by
  induction entries with
  | nil => intro acc; simp [sumCounts]
  | cons p rest ih =>
    intro acc
    simp only [List.foldl_cons, List.filter_cons]
    rw [ih (catStep acc p), catStep_sum]
    by_cases h : 200 ≤ p.1 ∧ p.1 < 600
    · simp only [if_pos h, show (200 ≤ p.1 && p.1 < 600) = true by simp [h.1, h.2]]
      simp [sumCounts]
      omega
    · have hb : (200 ≤ p.1 && p.1 < 600) = false := by
        simp only [Bool.and_eq_false_iff]
        rcases Classical.em (200 ≤ p.1) with h2 | h2
        · exact Or.inr (by simp; omega)
        · exact Or.inl (by simpa using h2)
      simp [if_neg h, hb]
  
theorem abs_round2_sub (q : ℚ) : |round2 q - q| ≤ 1 / 200 := by
  unfold round2
  have h := abs_sub_round (q * 100)
  have h2 : |(round (q * 100) : ℚ) / 100 - q| = |(round (q * 100) : ℚ) - q * 100| / 100 := by
    rw [← abs_of_pos (show (0:ℚ) < 100 by norm_num), ← abs_div]
    congr 1
    field_simp
    ring
  rw [h2, abs_sub_comm]
  linarith

theorem parseFloatQ_nonneg {l : List Char} {q : ℚ} (h : parseFloatQ l = some q) :
    0 ≤ q := by
  unfold parseFloatQ at h
  split at h
  · split_ifs at h
    injection h with h
    subst h
    positivity
  · split_ifs at h
    injection h with h
    subst h
    positivity

theorem rtField_nonneg {l : List Char} {v : ℚ} (h : rtField l = some (some v)) :
    0 ≤ v := by
  unfold rtField at h
  rcases hc : rtCapture l with _ | tk
  · rw [hc] at h; simp at h
  · rw [hc] at h
    simp only [Option.map_some'] at h
    injection h with h
    rcases hp : parseFloatQ tk with _ | q
    · rw [hp] at h; simp at h
    · rw [hp] at h
      simp only [Option.map_some'] at h
      injection h with h
      subst h
      have := parseFloatQ_nonneg hp
      positivity

theorem parseAccessChars_rt {l : List Char} {r : AccessRecord}
    (h : parseAccessChars l = some r) : r.responseTime = rtField l := by
  unfold parseAccessChars at h
  rcases h1 : scanIpDashes l with _ | p1 <;> rw [h1] at h <;> simp only [Option.bind] at h
  · exact absurd h (by simp)
  rcases h2 : scanBracketTs p1.2 with _ | p2 <;> rw [h2] at h <;> simp only [Option.bind] at h
  · exact absurd h (by simp)
  rcases h3 : scanMethodPath p2.2 with _ | p3 <;> rw [h3] at h <;> simp only [Option.bind] at h
  · exact absurd h (by simp)
  rcases h4 : scanHttpVer p3.2.2 with _ | p4 <;> rw [h4] at h <;> simp only [Option.bind] at h
  · exact absurd h (by simp)
  rcases h5 : scanNums p4 with _ | p5 <;> rw [h5] at h <;> simp only [Option.bind] at h
  · exact absurd h (by simp)
  rcases h6 : scanRefUa p5.2.2 with _ | p6 <;> rw [h6] at h
  · exact absurd h (by simp)
  simp only [Option.map_some'] at h
  injection h with h
  subst h
  rfl

theorem parseAccessLogLine_rt {s : String} {r : AccessRecord}
    (h : parseAccessLogLine s = some r) : r.responseTime = rtField s.data :=
  parseAccessChars_rt h

theorem length_filterMap_of_all_isSome {f : α → Option β} {l : List α}
    (h : ∀ a ∈ l, (f a).isSome = true) :
    (l.filterMap f).length = l.length := by
  induction l with
  | nil => rfl
  | cons a rest ih =>
    rcases Option.isSome_iff_exists.mp (h a (by simp)) with ⟨b, hb⟩
    rw [List.filterMap_cons, hb]
    simp only [List.length_cons]
    rw [ih fun x hx => h x (by simp [hx])]

theorem filter_take_append (l : List α) (n : Nat) (p : α → Bool) :
    ∃ t, (l.take n).filter p ++ t = l.filter p := by
  refine ⟨(l.drop n).filter p, ?_⟩
  rw [← List.filter_append, List.take_append_drop]

theorem topList_ok (entries : List (String × Nat)) (total : Nat) :
    TopListOk (topList entries total) entries total := by
  refine ⟨?_, ?_, ?_, ?_⟩
  · -- sorted by descending count
    unfold topList
    rw [List.pairwise_map]
    exact ((sortDesc_pairwise (entriesOf entries)).sublist (List.take_sublist 10 _))
  · -- at most ten entries
    simp [topList]
  · -- stability: equal-count entries are a prefix of the entry order
    intro c
    unfold topList
    rw [List.filter_map]
    have hcomp : ((fun e => e.count == c) ∘ fun e : String × Nat =>
        ({ key := e.1, count := e.2, percentage := round2 ((e.2 : ℚ) / (total : ℚ) * 100) } : PctEntry)) =
        fun e : String × Nat => e.2 == c := rfl
    rw [hcomp, List.map_map]
    have hid : (entryPair ∘ fun e : String × Nat =>
        ({ key := e.1, count := e.2, percentage := round2 ((e.2 : ℚ) / (total : ℚ) * 100) } : PctEntry)) =
        fun e : String × Nat => e := rfl
    rw [hid, List.map_id']
    rcases filter_take_append (sortDesc (entriesOf entries)) 10 (fun e => e.2 == c) with ⟨t, ht⟩
    exact ⟨t, by rw [ht, filter_sortDesc]⟩
  · -- percentages
    intro e he
    unfold topList at he
    rcases List.mem_map.mp he with ⟨p, _, hp⟩
    rw [← hp]

theorem entriesOf_eq_self (m : List (String × Nat))
    (h : ∀ p ∈ m, isArrayIndexKey p.1 = false) : entriesOf m = m := by
  unfold entriesOf
  have h1 : m.filter (fun p => isArrayIndexKey p.1) = [] := by
    rw [List.filter_eq_nil_iff]
    intro p hp
    simp [h p hp]
  have h2 : m.filter (fun p => !(isArrayIndexKey p.1)) = m := by
    rw [List.filter_eq_self]
    intro p hp
    simp [h p hp]
  rw [h1, h2]
  rfl

/-- C9: `analyzeLog` is deterministic across calls — with the instance
state passed explicitly, a call leaves the state untouched and a second
call on the same input (through the state the first call returned)
produces exactly the same result pair. -/
theorem C9_idempotent_analyze :
    ∀ (st : LogAnalyzerState) (content ty : String),
      (analyzeSt st content ty).2 = st ∧
      analyzeSt (analyzeSt st content ty).2 content ty = analyzeSt st content ty := by
  intro st content ty
  exact ⟨rfl, rfl⟩

unseal Rat.add Rat.mul Rat.inv Rat.sub in
/-- C1 (counterexample): a blob with 3 well-formed access lines and 2
garbage lines reports `totalRequests = 5`, not `3` — the count is taken
before drop-on-mismatch filtering. -/
theorem C1_counterexample :
    wellFormedCount (keptLines blob32) = 3 ∧
    garbageCount (keptLines blob32) = 2 ∧
    (analyzeAccessLog (keptLines blob32)).totalRequests = 5 ∧
    (analyzeAccessLog (keptLines blob32)).totalRequests ≠ wellFormedCount (keptLines blob32) :=
  ⟨by decide, by decide, by decide, by decide⟩

unseal Rat.add Rat.mul Rat.inv Rat.sub in
/-- C1 (amended): `totalRequests` equals the count of all non-blank
lines, well-formed plus garbage; the 3-good/2-garbage blob reports 5,
and its percentages are computed with denominator 5 (the top path held
by the three parsed lines shows 60%, not 100%). -/
theorem C1_amended :
    (∀ lines : List String, (analyzeAccessLog lines).totalRequests =
      wellFormedCount lines + garbageCount lines) ∧
    (analyzeAccessLog (keptLines blob32)).totalRequests = 5 ∧
    (analyzeAccessLog (keptLines blob32)).topPaths.map (fun e => e.percentage) = [60] := by
  refine ⟨?_, by decide, by decide⟩
  intro lines
  show lines.length = _
  unfold wellFormedCount garbageCount
  have h := length_filter_partition (fun l => (parseAccessLogLine l).isSome) lines
  have hpt : lines.filter (fun l => !((parseAccessLogLine l).isSome)) =
      lines.filter (fun l => (parseAccessLogLine l).isNone) := by
    refine List.filter_congr ?_
    intro x _
    cases parseAccessLogLine x <;> rfl
  rw [h, hpt]

unseal Rat.add Rat.mul Rat.inv Rat.sub in
/-- C4: the grade is computed deterministically by the banded-deduction
scoring the claim describes (`calculateGrade` agrees with the
specification-worded `gradeSpec` on every benchmark result), and a wrk
result with mean latency 1200 ms, no errors and zero socket errors
grades "D". -/
theorem C4_grade_bands :
    (∀ r : BenchResults, calculateGrade r = gradeSpec r) ∧
    calculateGrade ⟨some 1200, 0, some 1000, some (0, 0, 0, 0)⟩ = "D" := by
  constructor
  · intro r
    rcases r with ⟨lat, errs, tot, sock⟩
    have hb : ∀ s1 s2 : ℤ, s1 = s2 →
        (if s1 ≥ 90 then "A" else if s1 ≥ 80 then "B" else if s1 ≥ 70 then "C"
          else if s1 ≥ 60 then "D" else "F") =
        (if s2 ≥ 90 then "A" else if s2 ≥ 80 then "B" else if s2 ≥ 70 then "C"
          else if s2 ≥ 60 then "D" else "F") := by
      intro s1 s2 h
      rw [h]
    rcases lat with _ | latv <;> rcases tot with _ | t <;> rcases sock with _ | se <;>
      simp only [calculateGrade, gradeSpec, latencyDeduction, errorDeduction,
        socketDeduction] <;>
      refine hb _ _ ?_ <;>
      first
        | (split_ifs <;> omega)
        | omega
  · decide

/-- C5: log-format auto-detection tries the error-log signature before
the access-log signature and the first match wins; content matching both
resolves to "error", content matching only the access signature resolves
to "access" without throwing, and content matching neither raises the
explicit-kind error. -/
theorem C5_detect_priority :
    (∀ content : String, errorSigB content = true →
      detectLogType content = Except.ok "error") ∧
    (∀ content : String, errorSigB content = false → accessSigB content = true →
      detectLogType content = Except.ok "access") ∧
    (∀ content : String, errorSigB content = false → accessSigB content = false →
      detectLogType content =
        Except.error "Could not detect log type. Please specify type explicitly.") ∧
    (errorSigB bothSigContent = true ∧ accessSigB bothSigContent = true ∧
      detectLogType bothSigContent = Except.ok "error") ∧
    (errorSigB goodLine = false ∧ accessSigB goodLine = true ∧
      detectLogType goodLine = Except.ok "access") := by
  refine ⟨?_, ?_, ?_, by decide, by decide⟩
  · intro content h
    simp [detectLogType, h]
  · intro content h1 h2
    simp [detectLogType, h1, h2]
  · intro content h1 h2
    simp [detectLogType, h1, h2]

/-- Witness for C5 at concrete inputs: the detector hypotheses hold for
the access-only sample and the conclusion follows from the theorem. -/
theorem C5_detect_priority_witness :
    errorSigB goodLine = false ∧ accessSigB goodLine = true ∧
      detectLogType goodLine = Except.ok "access" :=
  ⟨by decide, by decide, C5_detect_priority.2.1 goodLine (by decide) (by decide)⟩

theorem breakdown_sum_bound (entries : List (Nat × Nat)) (T : Nat) (hT : 0 < T)
    (hent : ∀ p ∈ entries, (200 ≤ p.1 && p.1 < 600) = true)
    (hsum : sumCounts entries = T) :
    |breakdownPctSum (categorizeStatusCodes entries T) - 100| ≤ 1 / 50 := by
  have h4 := foldl_catStep_sum entries ⟨0, 0, 0, 0⟩
  rw [List.filter_eq_self.mpr hent, hsum] at h4
  simp only [Nat.zero_add] at h4
  set cats := entries.foldl catStep ⟨0, 0, 0, 0⟩ with hcats
  have hTQ : ((T : ℚ)) ≠ 0 := by
    exact_mod_cast Nat.pos_iff_ne_zero.mp hT
  set x1 : ℚ := (cats.success : ℚ) / (T : ℚ) * 100 with hx1
  set x2 : ℚ := (cats.redirect : ℚ) / (T : ℚ) * 100 with hx2
  set x3 : ℚ := (cats.clientError : ℚ) / (T : ℚ) * 100 with hx3
  set x4 : ℚ := (cats.serverError : ℚ) / (T : ℚ) * 100 with hx4
  have hxsum : x1 + x2 + x3 + x4 = 100 := by
    rw [hx1, hx2, hx3, hx4]
    have : ((cats.success : ℚ) + cats.redirect + cats.clientError + cats.serverError) = (T : ℚ) := by
      exact_mod_cast congrArg (Nat.cast (R := ℚ)) h4
    field_simp
    linarith [this]
  have hb : breakdownPctSum (categorizeStatusCodes entries T) =
      round2 x1 + round2 x2 + round2 x3 + round2 x4 := rfl
  rw [hb]
  have e1 := abs_round2_sub x1
  have e2 := abs_round2_sub x2
  have e3 := abs_round2_sub x3
  have e4 := abs_round2_sub x4
  rw [abs_le] at e1 e2 e3 e4 ⊢
  constructor <;> linarith

/-- C2 (amended): when every non-blank line matches the access-log
grammar and every status falls in the four breakdown classes, the four
`StatusBreakdown` percentages sum to 100.00 up to the two-decimal
rounding tolerance (at most 0.02 away). -/
theorem C2_breakdown_sum :
    ∀ lines : List String, lines ≠ [] →
      (∀ l ∈ lines, statusOkLine l = true) →
      |breakdownPctSum (analyzeAccessLog lines).statusBreakdown - 100| ≤ 1 / 50 := by
  intro lines hne hok
  have hall : ∀ l ∈ lines, (parseAccessLogLine l).isSome = true := by
    intro l hl
    have h := hok l hl
    unfold statusOkLine at h
    cases hp : parseAccessLogLine l with
    | none => rw [hp] at h; exact absurd h (by simp)
    | some r => rfl
  have hreclen : (accessRecords lines).length = lines.length :=
    length_filterMap_of_all_isSome hall
  have hrange : ∀ s ∈ (accessRecords lines).map (·.status), 200 ≤ s ∧ s < 600 := by
    intro s hs
    rcases List.mem_map.mp hs with ⟨r, hr, rfl⟩
    rcases List.mem_filterMap.mp hr with ⟨l, hl, hparse⟩
    have h := hok l hl
    unfold statusOkLine at h
    rw [hparse] at h
    simpa using h
  have hent : ∀ p ∈ countsOf ((accessRecords lines).map (·.status)),
      (200 ≤ p.1 && p.1 < 600) = true := by
    intro p hp
    have := mem_countsOf _ p hp
    rcases hrange p.1 this with ⟨h1, h2⟩
    simp [h1, h2]
  have hsum : sumCounts (countsOf ((accessRecords lines).map (·.status))) = lines.length := by
    rw [sumCounts_countsOf, List.length_map, hreclen]
  have hbd : (analyzeAccessLog lines).statusBreakdown =
      categorizeStatusCodes (countsOf ((accessRecords lines).map (·.status))) lines.length := rfl
  rw [hbd]
  exact breakdown_sum_bound _ _ (List.length_pos.mpr hne) hent hsum

unseal Rat.add Rat.mul Rat.inv Rat.sub in
/-- Witness for C2 at a concrete input: a single well-formed 200-status
line satisfies the hypotheses and the bound follows from the theorem. -/
theorem C2_breakdown_sum_witness :
    ([goodLine] ≠ ([] : List String)) ∧ (∀ l ∈ [goodLine], statusOkLine l = true) ∧
      |breakdownPctSum (analyzeAccessLog [goodLine]).statusBreakdown - 100| ≤ 1 / 50 :=
  ⟨by decide, by decide, C2_breakdown_sum [goodLine] (by decide) (by decide)⟩

unseal Rat.add Rat.mul Rat.inv Rat.sub in
/-- C2 (counterexample): on a blob with one well-formed 200-status line
and one garbage line the stored percentages sum to 50, far outside any
rounding tolerance of 100, because the denominator counts the garbage
line. -/
theorem C2_counterexample :
    breakdownPctSum (analyzeAccessLog (keptLines blob11)).statusBreakdown = 50 ∧
    ¬ |breakdownPctSum (analyzeAccessLog (keptLines blob11)).statusBreakdown - 100| ≤ 1 / 50 :=
  ⟨by decide, by decide⟩

unseal Rat.add Rat.mul Rat.inv Rat.sub in
/-- C3: on every nonempty sample the percentile equals the nearest-rank
value at the clamped index the specification describes (for the
percentile arguments in use, `0 < p ≤ 100`, the clamp is inert), and the
concrete examples hold: p95 of [10,20,30,40,50] is 50, its median is 30,
and the even-length median is the mean of the two middle values. -/
theorem C3_percentile_nearest_rank :
    (∀ (l : List ℚ) (p : ℚ), l ≠ [] → 0 < p → p ≤ 100 →
      percentileQ l p = percentileSpecClamped l p) ∧
    percentileQ [10, 20, 30, 40, 50] 95 = 50 ∧
    medianQ [10, 20, 30, 40, 50] = 30 ∧
    medianQ [10, 20, 30, 40] = 25 := by
  refine ⟨?_, by decide, by decide, by decide⟩
  intro l p hl hp hp100
  unfold percentileQ percentileSpecClamped
  have hlen : (sortAsc l).length = l.length := (List.perm_insertionSort _ l).length_eq
  have hn : 0 < l.length := List.length_pos.mpr hl
  have hnq : (0 : ℚ) < ((sortAsc l).length : ℚ) := by
    rw [hlen]
    exact_mod_cast hn
  have hc1 : 0 < Int.ceil (p / 100 * ((sortAsc l).length : ℚ)) :=
    Int.ceil_pos.mpr (mul_pos (div_pos hp (by norm_num)) hnq)
  have hc2 : Int.ceil (p / 100 * ((sortAsc l).length : ℚ)) ≤ ((sortAsc l).length : ℤ) := by
    rw [Int.ceil_le]
    push_cast
    calc p / 100 * ((sortAsc l).length : ℚ) ≤ 1 * ((sortAsc l).length : ℚ) := by
          refine mul_le_mul_of_nonneg_right ?_ (le_of_lt hnq)
          rw [div_le_one (by norm_num)]
          exact hp100
      _ = ((sortAsc l).length : ℚ) := one_mul _
  dsimp only
  congr 1
  rw [hlen] at hc1 hc2 ⊢
  push_cast at hc1 hc2 ⊢
  omega

theorem detectSecurityIssues_cases {tps : List PctEntry} {i : SecurityIssue}
    (hi : i ∈ detectSecurityIssues tps) :
    (i.ty = "sql-injection" ∧ (tps.filter fun e => sqlPat e.key).length > 0 ∧
      i.paths = (tps.filter fun e => sqlPat e.key).map (·.key)) ∨
    (i.ty = "path-traversal" ∧ (tps.filter fun e => travPat e.key).length > 0 ∧
      i.paths = (tps.filter fun e => travPat e.key).map (·.key)) := by
  unfold detectSecurityIssues at hi
  rcases List.mem_append.mp hi with h | h
  · split_ifs at h with hc
    · obtain rfl := List.mem_singleton.mp h
      exact Or.inl ⟨rfl, hc, rfl⟩
    · cases h
  · split_ifs at h with hc
    · obtain rfl := List.mem_singleton.mp h
      exact Or.inr ⟨rfl, hc, rfl⟩
    · cases h

/-- C6: access-log security detection scans exactly the top-10 path
list: an sql-injection issue is emitted precisely when some top path
matches the injection pattern and a path-traversal issue precisely when
some top path matches the traversal pattern, each issue carries exactly
the matching top paths, every reported path comes from the top list, and
the spec's two example paths trigger their respective issue types. -/
theorem C6_security_scan :
    (∀ tps : List PctEntry,
      ((∃ i ∈ detectSecurityIssues tps, i.ty = "sql-injection") ↔
        ∃ e ∈ tps, sqlPat e.key = true) ∧
      ((∃ i ∈ detectSecurityIssues tps, i.ty = "path-traversal") ↔
        ∃ e ∈ tps, travPat e.key = true) ∧
      (∀ i ∈ detectSecurityIssues tps, i.ty = "sql-injection" →
        i.paths = (tps.filter fun e => sqlPat e.key).map (·.key)) ∧
      (∀ i ∈ detectSecurityIssues tps, i.ty = "path-traversal" →
        i.paths = (tps.filter fun e => travPat e.key).map (·.key)) ∧
      (∀ i ∈ detectSecurityIssues tps, ∀ p ∈ i.paths, p ∈ tps.map (·.key))) ∧
    sqlPat adminInjPath = true ∧ travPat travPath = true ∧
    (detectSecurityIssues [⟨adminInjPath, 3, 30⟩]).map (·.ty) = ["sql-injection"] ∧
    (detectSecurityIssues [⟨travPath, 2, 20⟩]).map (·.ty) = ["path-traversal"] := by
  refine ⟨?_, by decide, by decide, by decide, by decide⟩
  intro tps
  refine ⟨?_, ?_, ?_, ?_, ?_⟩
  · constructor
    · rintro ⟨i, hi, hty⟩
      rcases detectSecurityIssues_cases hi with ⟨_, hlen, _⟩ | ⟨hty2, _, _⟩
      · rcases List.exists_mem_of_ne_nil _ (List.ne_nil_of_length_pos hlen) with ⟨e, he⟩
        rcases List.mem_filter.mp he with ⟨hmem, hpat⟩
        exact ⟨e, hmem, hpat⟩
      · exact absurd (hty2.symm.trans hty) (by decide)
    · rintro ⟨e, he, hpat⟩
      have hlen : (tps.filter fun x => sqlPat x.key).length > 0 :=
        List.length_pos.mpr (List.ne_nil_of_mem (List.mem_filter.mpr ⟨he, hpat⟩))
      refine ⟨⟨"high", "sql-injection", "Potential SQL injection attempts detected",
        (tps.filter fun e => sqlPat e.key).map (·.key)⟩, ?_, rfl⟩
      unfold detectSecurityIssues
      exact List.mem_append.mpr (Or.inl (by rw [if_pos hlen]; exact List.mem_singleton.mpr rfl))
  · constructor
    · rintro ⟨i, hi, hty⟩
      rcases detectSecurityIssues_cases hi with ⟨hty2, _, _⟩ | ⟨_, hlen, _⟩
      · exact absurd (hty2.symm.trans hty) (by decide)
      · rcases List.exists_mem_of_ne_nil _ (List.ne_nil_of_length_pos hlen) with ⟨e, he⟩
        rcases List.mem_filter.mp he with ⟨hmem, hpat⟩
        exact ⟨e, hmem, hpat⟩
    · rintro ⟨e, he, hpat⟩
      have hlen : (tps.filter fun x => travPat x.key).length > 0 :=
        List.length_pos.mpr (List.ne_nil_of_mem (List.mem_filter.mpr ⟨he, hpat⟩))
      refine ⟨⟨"high", "path-traversal", "Potential path traversal attempts detected",
        (tps.filter fun e => travPat e.key).map (·.key)⟩, ?_, rfl⟩
      unfold detectSecurityIssues
      exact List.mem_append.mpr (Or.inr (by rw [if_pos hlen]; exact List.mem_singleton.mpr rfl))
  · intro i hi hty
    rcases detectSecurityIssues_cases hi with ⟨_, _, hp⟩ | ⟨hty2, _, _⟩
    · exact hp
    · exact absurd (hty2.symm.trans hty) (by decide)
  · intro i hi hty
    rcases detectSecurityIssues_cases hi with ⟨hty2, _, _⟩ | ⟨_, _, hp⟩
    · exact absurd (hty2.symm.trans hty) (by decide)
    · exact hp
  · intro i hi p hp
    rcases detectSecurityIssues_cases hi with ⟨_, _, hpaths⟩ | ⟨_, _, hpaths⟩ <;>
    · rw [hpaths] at hp
      rcases List.mem_map.mp hp with ⟨e, he, rfl⟩
      exact List.mem_map.mpr ⟨e, (List.mem_filter.mp he).1, rfl⟩

/-- Witness for C6: the issue reported for the concrete injection-looking
top path carries a path that is indeed in the top list, by the theorem. -/
theorem C6_security_scan_witness :
    adminInjPath ∈ ([⟨adminInjPath, 3, 30⟩] : List PctEntry).map (·.key) :=
  (C6_security_scan.1 [⟨adminInjPath, 3, 30⟩]).2.2.2.2
    ⟨"high", "sql-injection", "Potential SQL injection attempts detected", [adminInjPath]⟩
    (by decide) adminInjPath (by decide)

unseal Rat.add Rat.mul Rat.inv Rat.sub in
/-- Witness for C3: the nonempty sample and percentile bounds hold at
the spec's example and the nearest-rank equation follows from the
theorem. -/
theorem C3_percentile_nearest_rank_witness :
    percentileQ [10, 20, 30, 40, 50] 95 = percentileSpecClamped [10, 20, 30, 40, 50] 95 :=
  C3_percentile_nearest_rank.1 [10, 20, 30, 40, 50] 95 (by decide) (by decide) (by decide)

unseal Rat.add Rat.mul Rat.inv Rat.sub in
/-- C7: the latency recommendation of the access-log rule set is
produced exactly as specified — never when `responseTimeStats` is
absent, with high severity exactly when p95 exceeds 1000 ms and medium
severity exactly when it exceeds 500 ms but not 1000 ms — and it is
unaffected by every other rule: filtering the full recommendation list
to the performance category yields precisely that rule's output for
every analysis result. -/
theorem C7_latency_rules :
    ∀ r : AccessResults,
      (generateAccessLogRecommendations r).filter
          (fun rec => rec.category == "performance") =
        (match r.responseTimeStats with
         | none => []
         | some s =>
           if s.p95 > 1000 then [{ severity := "high", category := "performance" }]
           else if s.p95 > 500 then [{ severity := "medium", category := "performance" }]
           else []) := by
  intro r
  rcases hs : r.responseTimeStats with _ | s <;>
    rcases ht : r.topIPs with _ | ⟨top, rest⟩ <;>
      simp only [generateAccessLogRecommendations, hs, ht, List.filter_append] <;>
        split_ifs <;> decide

theorem rtStats_isSome (lines : List String) :
    ((analyzeAccessLog lines).responseTimeStats).isSome = true ↔
      responseTimesOf (accessRecords lines) ≠ [] := by
  have h : (analyzeAccessLog lines).responseTimeStats =
      (if (responseTimesOf (accessRecords lines)).length > 0 then
        some { avg := averageQ (responseTimesOf (accessRecords lines)),
               median := medianQ (responseTimesOf (accessRecords lines)),
               p95 := percentileQ (responseTimesOf (accessRecords lines)) 95,
               p99 := percentileQ (responseTimesOf (accessRecords lines)) 99,
               max := maxQ (responseTimesOf (accessRecords lines)) }
       else none) := rfl
  rw [h]
  split_ifs with hc
  · simp only [Option.isSome_some]
    exact ⟨fun _ => List.ne_nil_of_length_pos hc, fun _ => trivial⟩
  · simp only [Option.isSome_none]
    constructor
    · intro hfalse
      exact absurd hfalse (by decide)
    · intro hne
      exact absurd (List.length_pos.mpr hne) hc

unseal Rat.add Rat.mul Rat.inv Rat.sub in
/-- C10: a parsed response-time annotation of exactly zero is excluded
from the sample just as if the annotation were absent (replacing a zero
annotation by no annotation leaves the collected sample unchanged),
`responseTimeStats` is present exactly when some record carries a
strictly positive parsed response time, and the concrete `rt=0.000` line
parses with response time zero yet produces no stats. -/
theorem C10_zero_response_time :
    (∀ recs : List AccessRecord,
      responseTimesOf (recs.map zeroRtToAbsent) = responseTimesOf recs) ∧
    (∀ lines : List String,
      ((analyzeAccessLog lines).responseTimeStats).isSome = true ↔
        ∃ r ∈ accessRecords lines, ∃ v : ℚ, r.responseTime = some (some v) ∧ 0 < v) ∧
    (analyzeAccessLog (keptLines zeroRtLine)).responseTimeStats = none ∧
    (parseAccessLogLine zeroRtLine).map (·.responseTime) = some (some (some 0)) := by
  refine ⟨?_, ?_, by decide, by decide⟩
  · intro recs
    unfold responseTimesOf
    rw [List.filterMap_map]
    refine List.filterMap_congr ?_
    intro rec _
    show rtPush (zeroRtToAbsent rec).responseTime = rtPush rec.responseTime
    unfold zeroRtToAbsent
    split_ifs with hz
    · rw [hz]
      rfl
    · rfl
  · intro lines
    rw [rtStats_isSome]
    constructor
    · intro hne
      rcases List.exists_mem_of_ne_nil _ hne with ⟨v, hv⟩
      rcases List.mem_filterMap.mp hv with ⟨r, hr, hpush⟩
      rcases hrt : r.responseTime with _ | o
      · rw [hrt] at hpush
        simp [rtPush] at hpush
      · rcases o with _ | v2
        · rw [hrt] at hpush
          simp [rtPush] at hpush
        · rw [hrt] at hpush
          simp only [rtPush] at hpush
          split_ifs at hpush with hz
          have hnn : 0 ≤ v2 := by
            rcases List.mem_filterMap.mp hr with ⟨line, _, hparse⟩
            have := parseAccessLogLine_rt hparse
            rw [this] at hrt
            exact rtField_nonneg hrt
          exact ⟨r, hr, v2, hrt, lt_of_le_of_ne hnn (Ne.symm hz)⟩
    · rintro ⟨r, hr, v, hrt, hpos⟩
      refine List.ne_nil_of_mem (a := v) ?_
      refine List.mem_filterMap.mpr ⟨r, hr, ?_⟩
      rw [hrt]
      simp only [rtPush]
      rw [if_neg hpos.ne']

/-- C8 (amended): every top-N list of the log analyses — top paths, top
client addresses, top error messages — is sorted by descending count,
holds at most 10 entries, and carries two-decimal percentages whose
denominator is the non-blank line count (not the post-filter record
count); ties are kept in the `Object.entries` enumeration order of the
count map — array-index-like keys first in ascending numeric order,
then the remaining keys in first-seen order — which collapses to pure
first-seen order exactly when no key is an array-index-like all-digit
string. -/
theorem C8_top_lists :
    (∀ lines : List String,
      TopListOk (analyzeAccessLog lines).topPaths
        (countsOf ((accessRecords lines).map (·.path))) lines.length ∧
      TopListOk (analyzeAccessLog lines).topIPs
        (countsOf ((accessRecords lines).map (·.ip))) lines.length ∧
      TopListOk (analyzeErrorLog lines).topErrors
        (countsOf ((lines.filterMap parseErrorLogLine).map
          (fun r => String.mk (r.message.data.take 100)))) lines.length) ∧
    (∀ m : List (String × Nat), (∀ p ∈ m, isArrayIndexKey p.1 = false) →
      entriesOf m = m) := by
  refine ⟨?_, entriesOf_eq_self⟩
  intro lines
  refine ⟨?_, ?_, ?_⟩
  · have h : (analyzeAccessLog lines).topPaths =
        topList (countsOf ((accessRecords lines).map (·.path))) lines.length := rfl
    rw [h]
    exact topList_ok _ _
  · have h : (analyzeAccessLog lines).topIPs =
        topList (countsOf ((accessRecords lines).map (·.ip))) lines.length := rfl
    rw [h]
    exact topList_ok _ _
  · have h : (analyzeErrorLog lines).topErrors =
        topList (countsOf ((lines.filterMap parseErrorLogLine).map
          (fun r => String.mk (r.message.data.take 100)))) lines.length := rfl
    rw [h]
    exact topList_ok _ _

unseal Rat.add Rat.mul Rat.inv Rat.sub in
/-- Witness for C8: on a single well-formed line the sole top-path entry
is in the list and its percentage is the rounded formula, by the
theorem. -/
theorem C8_top_lists_witness :
    (⟨"/a", 1, 100⟩ : PctEntry).percentage =
      round2 (((⟨"/a", 1, (100 : ℚ)⟩ : PctEntry).count : ℚ) /
        (([goodLine] : List String).length : ℚ) * 100) :=
  (C8_top_lists.1 [goodLine]).1.2.2.2 ⟨"/a", 1, 100⟩ (by decide)

unseal Rat.add Rat.mul Rat.inv Rat.sub in
/-- C8 (counterexample): the claim fails on the code twice over.  On a
blob whose path `/a` is seen before the equal-count all-digit path
`123`, `Object.entries` enumerates the array-index-like key `123`
first, so the stable sort reports `123` before `/a` — not the claimed
first-seen tie order of the count map.  And with one well-formed plus
one garbage line the sole top-path entry displays 50%, where
`count / totalRecords * 100` with the spec's post-filter record count
(1) would give 100%. -/
theorem C8_counterexample :
    (analyzeAccessLog (keptLines blobTie)).topPaths.map (fun e => e.key) = ["123", "/a"] ∧
    (countsOf ((accessRecords (keptLines blobTie)).map (·.path))).map (·.1) = ["/a", "123"] ∧
    (analyzeAccessLog (keptLines blobTie)).topPaths.map (fun e => e.count) = [1, 1] ∧
    (["123", "/a"] : List String) ≠ ["/a", "123"] ∧
    (analyzeAccessLog (keptLines blob11)).topPaths.map (fun e => e.percentage) = [50] ∧
    (accessRecords (keptLines blob11)).length = 1 ∧
    ¬ (50 : ℚ) = round2 ((1 : ℚ) /
      ((accessRecords (keptLines blob11)).length : ℚ) * 100) :=
  ⟨by decide, by decide, by decide, by decide, by decide, by decide, by decide⟩
